import Mathlib

/-!
Shallow embedding of the credential-reconciliation core of `redact-pii`
(`packages/app/src/rewriteCredential.ts` and its data model in
`packages/app/src/types/credentials.ts`).

External effects (SSM Parameter Store, S3) are modelled by explicit state
passing: the SSM store is an association list from parameter name to the
stored string value, and every store interaction is logged in a trace of
`StoreEvent`s. `Promise.all` over the entries is modelled as a left-to-right
fold (per the design, entries are independent; the only interleaving-sensitive
case, a plaintext and a masked entry sharing a `clientId`, is called out in
the theorems' hypotheses). JavaScript strings are modelled as Lean `String`s
(code points instead of UTF-16 units; no claim depends on the difference).
-/

/-- Model of `Credential` from `types/credentials.ts`: an object with
`clientId` and `apiKey` string fields. -/
structure Credential where
  clientId : String
  apiKey : String
deriving DecidableEq, Repr

/-- Model of `CredentialsFile` from `types/credentials.ts`. -/
structure CredentialsFile where
  lastUpdated : String
  credentials : List Credential
deriving DecidableEq, Repr

/-- The SSM Parameter Store modelled as an association list from parameter
name to stored string value. -/
abbrev SSMStore := List (String × String)

/-- One interaction with an external store: an SSM `GetParameterCommand`,
an SSM `PutParameterCommand`, or an S3 `PutObjectCommand` (carried
structurally as the written `CredentialsFile`). -/
inductive StoreEvent where
  | ssmGet : String → StoreEvent
  | ssmPut : String → String → StoreEvent
  | s3Put : String → String → CredentialsFile → StoreEvent
deriving DecidableEq, Repr

/-- Errors surfaced by `storeCredential`: the SSM parameter is absent
(AWS `ParameterNotFound`, the spec's `NotFoundError`), or the stored value
fails `JSON.parse` / `CredentialSchema.parse`. -/
inductive RewriteError where
  | notFound : String → RewriteError
  | parseError : String → RewriteError
deriving DecidableEq, Repr

/-- JavaScript `s.startsWith(p)`. -/
def jsStartsWith (s p : String) : Bool :=
  p.data.isPrefixOf s.data

/-- JavaScript `s.slice(-n)` for `n > 0`: the last `min n (length s)`
characters of `s`. -/
def jsSliceLast (n : Nat) (s : String) : String :=
  String.mk (s.data.drop (s.data.length - n))

/-- The masking codec applied to an API key in `redactCredential`
(`rewriteCredential.ts` line 92): the fixed four-character marker followed
by JavaScript `apiKey.slice(-4)`. -/
def maskApiKey (s : String) : String :=
  "****" ++ jsSliceLast 4 s

/-- The masked-detection predicate used at `rewriteCredential.ts` lines 48
and 142: `apiKey.startsWith('****')`. -/
def isMasked (s : String) : Bool :=
  jsStartsWith s "****"

/-- Model of `redactCredential` (`rewriteCredential.ts` lines 89-94). -/
def redactCredential (credential : Credential) : Credential :=
  { credential with apiKey := maskApiKey credential.apiKey }

/-- The SSM parameter name used by `storeCredential`:
`/pii/$\x7bclientId\x7d/credentials`. -/
def ssmKey (clientId : String) : String :=
  "/pii/" ++ clientId ++ "/credentials"

/-- Association-list lookup modelling `GetParameterCommand` against the
store state. -/
def lookupStore : SSMStore → String → Option String
  | [], _ => none
  | (k, v) :: rest, key => if k = key then some v else lookupStore rest key

/-- Association-list overwrite modelling `PutParameterCommand` with
`Overwrite: true`. -/
def insertStore : SSMStore → String → String → SSMStore
  | [], key, val => [(key, val)]
  | (k, v) :: rest, key, val =>
    if k = key then (key, val) :: rest else (k, v) :: insertStore rest key val

/-- Escaping of one character inside a JSON string literal, as performed by
`JSON.stringify` on the quote and backslash characters. Control-character
escapes, which no stored value in the claims contains, are not modelled. -/
def jsonEscapeChar (c : Char) : List Char :=
  if c = '"' ∨ c = '\\' then ['\\', c] else [c]

/-- The body of a JSON string literal for `s`. -/
def jsonEscape (s : String) : String :=
  String.mk (s.data.flatMap jsonEscapeChar)

/-- `JSON.stringify(credential)` for a two-field credential object, fields in
schema order `clientId`, `apiKey` (`rewriteCredential.ts` line 62). -/
def credJson (c : Credential) : String :=
  "\x7b\"clientId\":\"" ++ jsonEscape c.clientId ++ "\",\"apiKey\":\"" ++
    jsonEscape c.apiKey ++ "\"\x7d"

/-- Parse the body of a JSON string literal up to and including its closing
quote, returning the decoded characters and the rest of the input. -/
def parseJsonString : List Char → Option (List Char × List Char)
  | [] => none
  | c :: rest =>
    if c = '"' then some ([], rest)
    else if c = '\\' then
      match rest with
      | [] => none
      | d :: rest2 =>
        if d = '"' ∨ d = '\\' then
          match parseJsonString rest2 with
          | none => none
          | some p => some (d :: p.1, p.2)
        else none
    else
      match parseJsonString rest with
      | none => none
      | some p => some (c :: p.1, p.2)

/-- Consume an expected literal character sequence from the input. -/
def dropLiteral (lit l : List Char) : Option (List Char) :=
  if lit.isPrefixOf l then some (l.drop lit.length) else none

/-- Model of `CredentialSchema.parse(JSON.parse(value))` on the wire format
produced by `credJson`: fails (`none`) exactly when the stored value is not a
well-formed serialized credential. -/
def parseCredJson (s : String) : Option Credential :=
  match dropLiteral ("\x7b\"clientId\":\"".data) s.data with
  | none => none
  | some r1 =>
    match parseJsonString r1 with
    | none => none
    | some (cid, r2) =>
      match dropLiteral (",\"apiKey\":\"".data) r2 with
      | none => none
      | some r3 =>
        match parseJsonString r3 with
        | none => none
        | some (key, r4) =>
          if r4 = ['\x7d'] then some ⟨String.mk cid, String.mk key⟩ else none

/-- Model of `storeCredential` (`rewriteCredential.ts` lines 45-69): a masked
key triggers an SSM get (absence is fatal), a plaintext key is upserted with
overwrite semantics and passed through. Returns the event trace together
with the outcome. -/
def storeCredential (ssm : SSMStore) (credential : Credential) :
    List StoreEvent × Except RewriteError (Credential × SSMStore) :=
  if isMasked credential.apiKey then
    match lookupStore ssm (ssmKey credential.clientId) with
    | none =>
      ([.ssmGet (ssmKey credential.clientId)],
        .error (.notFound (ssmKey credential.clientId)))
    | some v =>
      match parseCredJson v with
      | none =>
        ([.ssmGet (ssmKey credential.clientId)],
          .error (.parseError (ssmKey credential.clientId)))
      | some stored =>
        ([.ssmGet (ssmKey credential.clientId)], .ok (stored, ssm))
  else
    ([.ssmPut (ssmKey credential.clientId) (credJson credential)],
      .ok (credential,
        insertStore ssm (ssmKey credential.clientId) (credJson credential)))

/-- Sequential model of
`Promise.all(credentialsFile.credentials.map(storeCredential))`
(`rewriteCredential.ts` lines 136-138): resolve every entry left to right,
threading the store state; the first failure aborts. -/
def storeCredentials : SSMStore → List Credential →
    List StoreEvent × Except RewriteError (List Credential × SSMStore)
  | ssm, [] => ([], .ok ([], ssm))
  | ssm, c :: rest =>
    match storeCredential ssm c with
    | (evs, .error e) => (evs, .error e)
    | (evs, .ok (rc, ssm')) =>
      match storeCredentials ssm' rest with
      | (evs2, .error e) => (evs ++ evs2, .error e)
      | (evs2, .ok (rcs, ssm'')) => (evs ++ evs2, .ok (rc :: rcs, ssm''))

/-- Model of `rewriteS3ObjectFile` (`rewriteCredential.ts` lines 129-166).
`bucket` models `EnvironmentVariables.BUCKET_NAME` and `now` models
`new Date().toISOString()`. The S3 body is carried structurally: the code
serializes exactly the object with fields `lastUpdated` and `credentials`,
where `credentials` is `credentialsFile.credentials.map(redactCredential)`
applied to the ORIGINAL input list (line 144). -/
def rewriteS3ObjectFile (bucket now : String) (ssm : SSMStore)
    (credentialsFile : CredentialsFile) (key : String) :
    List StoreEvent × Except RewriteError (CredentialsFile × SSMStore) :=
  match storeCredentials ssm credentialsFile.credentials with
  | (evs, .error e) => (evs, .error e)
  | (evs, .ok (resolved, ssm')) =>
    if credentialsFile.credentials.any (fun cred => !isMasked cred.apiKey) then
      (evs ++ [.s3Put bucket key
          { lastUpdated := now,
            credentials := credentialsFile.credentials.map redactCredential }],
        .ok ({ lastUpdated := now, credentials := resolved }, ssm'))
    else
      (evs, .ok ({ credentialsFile with credentials := resolved }, ssm'))

/-- Fixture: the canonical record for client `a` used by the concrete runs. -/
def canonicalA : Credential := ⟨"a", "sk-abc123xyz"⟩

/-- Fixture: a store already holding the canonical record for client `a`. -/
def ssmA : SSMStore := [("/pii/a/credentials", credJson canonicalA)]

/-- Fixture: a document with a masked entry whose value is not the mask of
the stored canonical value, plus a plaintext entry. -/
def fileC1 : CredentialsFile := ⟨"L", [⟨"a", "****WXYZ"⟩, ⟨"b", "plain-key-123"⟩]⟩

/-- Fixture: a document with a plaintext entry followed by a masked entry
that has no store record. -/
def fileC2 : CredentialsFile := ⟨"L", [⟨"b", "plainkey"⟩, ⟨"a", "****WXYZ"⟩]⟩

/-- Fixture: a fully masked document matching `ssmA`. -/
def fileMasked : CredentialsFile := ⟨"L", [⟨"a", "****3xyz"⟩]⟩

/-- Fixture: a mixed masked/plaintext document matching `ssmA`. -/
def fileMix : CredentialsFile := ⟨"L", [⟨"a", "****3xyz"⟩, ⟨"b", "plain-key-123"⟩]⟩

/-! ## Codec lemmas -/

theorem jsSliceLast_length (n : Nat) (s : String) :
    (jsSliceLast n s).length = min s.length n := by
  have hs : s.length = s.data.length := rfl
  simp only [jsSliceLast, String.length, List.length_drop]
  omega

theorem maskApiKey_length (s : String) :
    (maskApiKey s).length = 4 + min s.length 4 := by
  have hm : ("****" : String).length = 4 := rfl
  simp [maskApiKey, String.length_append, jsSliceLast_length, hm]

theorem jsSliceLast_four_marker (t : String) (h : t.length = 4) :
    jsSliceLast 4 ("****" ++ t) = t := by
  have hd : ("****" ++ t).data = "****".data ++ t.data := String.data_append _ _
  have hm : ("****" : String).data.length = 4 := rfl
  have ht : t.data.length = 4 := h
  have hlen : ("****" ++ t).data.length - 4 = "****".data.length := by
    rw [hd, List.length_append]
    omega
  unfold jsSliceLast
  rw [hlen, hd, List.drop_left]

/-- Claim C5: for every secret of length at least 4, the mask is the fixed 4-char
marker followed by exactly the last 4 characters; for shorter secrets the
mask is the marker followed by the whole secret. -/
theorem mask_reveals_last_four (s : String) :
    (4 ≤ s.length →
      maskApiKey s = "****" ++ String.mk (s.data.drop (s.data.length - 4)) ∧
      (jsSliceLast 4 s).length = 4) ∧
    (s.length < 4 → maskApiKey s = "****" ++ s) := by
  have hs : s.length = s.data.length := rfl
  constructor
  · intro h4
    refine ⟨rfl, ?_⟩
    rw [jsSliceLast_length]
    omega
  · intro hlt
    have h0 : s.data.length - 4 = 0 := by omega
    simp only [maskApiKey, jsSliceLast, h0, List.drop_zero]

/-- Witness for C5 at a 12-character secret and at a 2-character secret. -/
theorem mask_reveals_last_four_witness :
    maskApiKey "sk-abc123xyz" =
      "****" ++ String.mk ((String.data "sk-abc123xyz").drop
        ((String.data "sk-abc123xyz").length - 4)) ∧
    maskApiKey "ab" = "****" ++ "ab" :=
  ⟨((mask_reveals_last_four "sk-abc123xyz").1 (by decide)).1,
    (mask_reveals_last_four "ab").2 (by decide)⟩

/-- Claim C9: masking any value, including the empty string, yields a value that
the masked-detection predicate classifies as masked. -/
theorem isMasked_maskApiKey (s : String) : isMasked (maskApiKey s) = true := by
  unfold isMasked jsStartsWith maskApiKey
  rw [String.data_append, List.isPrefixOf_iff_prefix]
  exact List.prefix_append _ _

/-- Claim C10: the masking function is idempotent on secrets of length at least 4,
and not idempotent on non-empty secrets shorter than 4 characters. -/
theorem mask_idempotent_iff_length (s : String) :
    (4 ≤ s.length → maskApiKey (maskApiKey s) = maskApiKey s) ∧
    (1 ≤ s.length → s.length < 4 →
      maskApiKey (maskApiKey s) ≠ maskApiKey s) := by
  constructor
  · intro h4
    have hl : (jsSliceLast 4 s).length = 4 := by
      rw [jsSliceLast_length]; omega
    show "****" ++ jsSliceLast 4 ("****" ++ jsSliceLast 4 s) = maskApiKey s
    rw [jsSliceLast_four_marker _ hl]
    rfl
  · intro h1 hlt heq
    have hlen := congrArg String.length heq
    simp only [maskApiKey_length] at hlen
    omega

/-- Witness for C10: idempotent at a 12-character secret, not idempotent at
the 2-character secret of the claim's example. -/
theorem mask_idempotent_iff_length_witness :
    maskApiKey (maskApiKey "sk-abc123xyz") = maskApiKey "sk-abc123xyz" ∧
    maskApiKey (maskApiKey "ab") ≠ maskApiKey "ab" :=
  ⟨(mask_idempotent_iff_length "sk-abc123xyz").1 (by decide),
    (mask_idempotent_iff_length "ab").2 (by decide) (by decide)⟩

/-! ## Store lemmas -/

theorem lookupStore_insertStore_self (ssm : SSMStore) (k v : String) :
    lookupStore (insertStore ssm k v) k = some v := by
  induction ssm with
  | nil => simp [insertStore, lookupStore]
  | cons p rest ih =>
    obtain ⟨k0, v0⟩ := p
    by_cases h : k0 = k
    · simp [insertStore, lookupStore, h]
    · simp [insertStore, lookupStore, h, ih]

theorem lookupStore_insertStore_ne (ssm : SSMStore) (k v k' : String)
    (h : k ≠ k') : lookupStore (insertStore ssm k v) k' = lookupStore ssm k' := by
  induction ssm with
  | nil => simp [insertStore, lookupStore, h]
  | cons p rest ih =>
    obtain ⟨k0, v0⟩ := p
    by_cases h0 : k0 = k
    · subst h0
      simp [insertStore, lookupStore, h]
    · simp [insertStore, lookupStore, h0, ih]

theorem mem_insertStore (ssm : SSMStore) (k v : String) (p : String × String)
    (hp : p ∈ insertStore ssm k v) : p ∈ ssm ∨ p = (k, v) := by
  induction ssm with
  | nil => simpa [insertStore] using hp
  | cons q rest ih =>
    obtain ⟨k0, v0⟩ := q
    by_cases h0 : k0 = k
    · simp only [insertStore, if_pos h0, List.mem_cons] at hp
      rcases hp with hp | hp
      · exact Or.inr hp
      · exact Or.inl (List.mem_cons_of_mem _ hp)
    · simp only [insertStore, if_neg h0, List.mem_cons] at hp
      rcases hp with hp | hp
      · exact Or.inl (by simp [hp])
      · rcases ih hp with h | h
        · exact Or.inl (List.mem_cons_of_mem _ h)
        · exact Or.inr h

theorem lookupStore_mem (ssm : SSMStore) (key v : String)
    (h : lookupStore ssm key = some v) : (key, v) ∈ ssm := by
  induction ssm with
  | nil => simp [lookupStore] at h
  | cons p rest ih =>
    obtain ⟨k0, v0⟩ := p
    by_cases h0 : k0 = key
    · subst h0
      simp only [lookupStore, if_pos, Option.some.injEq] at h
      subst h
      exact List.mem_cons_self _ _
    · simp only [lookupStore, if_neg h0] at h
      exact List.mem_cons_of_mem _ (ih h)

/-! ## JSON roundtrip -/

theorem parseJsonString_cons (c : Char) (rest : List Char) :
    parseJsonString (c :: rest) =
      if c = '"' then some ([], rest)
      else if c = '\\' then
        match rest with
        | [] => none
        | d :: rest2 =>
          if d = '"' ∨ d = '\\' then
            match parseJsonString rest2 with
            | none => none
            | some p => some (d :: p.1, p.2)
          else none
      else
        match parseJsonString rest with
        | none => none
        | some p => some (c :: p.1, p.2) := by
  rw [parseJsonString.eq_def]

theorem parseJsonString_escape (l rest : List Char) :
    parseJsonString (l.flatMap jsonEscapeChar ++ ('"' :: rest)) =
      some (l, rest) := by
  induction l with
  | nil =>
    rw [List.flatMap_nil, List.nil_append, parseJsonString_cons, if_pos rfl]
  | cons c l ih =>
    by_cases hc : c = '"' ∨ c = '\\'
    · have hesc : jsonEscapeChar c = ['\\', c] := by simp [jsonEscapeChar, hc]
      have hshape : (c :: l).flatMap jsonEscapeChar ++ ('"' :: rest) =
          '\\' :: (c :: (l.flatMap jsonEscapeChar ++ ('"' :: rest))) := by
        simp [List.flatMap_cons, hesc]
      rw [hshape, parseJsonString_cons]
      rw [if_neg (by decide : ¬('\\' = '"')), if_pos rfl]
      show (if c = '"' ∨ c = '\\' then
          match parseJsonString (l.flatMap jsonEscapeChar ++ ('"' :: rest)) with
          | none => none
          | some p => some (c :: p.1, p.2)
        else none) = some (c :: l, rest)
      rw [if_pos hc, ih]
    · push_neg at hc
      have hesc : jsonEscapeChar c = [c] := by simp [jsonEscapeChar, hc.1, hc.2]
      have hshape : (c :: l).flatMap jsonEscapeChar ++ ('"' :: rest) =
          c :: (l.flatMap jsonEscapeChar ++ ('"' :: rest)) := by
        simp [List.flatMap_cons, hesc]
      rw [hshape, parseJsonString_cons, if_neg hc.1, if_neg hc.2, ih]

theorem dropLiteral_exact (lit l : List Char) :
    dropLiteral lit (lit ++ l) = some l := by
  unfold dropLiteral
  rw [if_pos, List.drop_left]
  rw [ List.isPrefixOf_iff_prefix]
  exact List.prefix_append _ _

theorem parseCredJson_credJson (c : Credential) :
    parseCredJson (credJson c) = some c := by
  obtain ⟨cid, key⟩ := c
  have hmk : ∀ s : String, String.mk s.data = s := fun _ => rfl
  have hdata : (credJson ⟨cid, key⟩).data =
      "\x7b\"clientId\":\"".data ++ (cid.data.flatMap jsonEscapeChar ++
        ('"' :: (",\"apiKey\":\"".data ++ (key.data.flatMap jsonEscapeChar ++
          ('"' :: ['\x7d']))))) := by
    show ("\x7b\"clientId\":\"" ++ jsonEscape cid ++ "\",\"apiKey\":\"" ++
      jsonEscape key ++ "\"\x7d").data = _
    have h1 : (jsonEscape cid).data = cid.data.flatMap jsonEscapeChar := rfl
    have h2 : (jsonEscape key).data = key.data.flatMap jsonEscapeChar := rfl
    have hB : ("\",\"apiKey\":\"" : String).data =
        '"' :: (",\"apiKey\":\"" : String).data := rfl
    have hC : ("\"\x7d" : String).data = '"' :: ['\x7d'] := rfl
    simp only [String.data_append, h1, h2, hB, hC, List.append_assoc,
      List.cons_append]
  simp only [parseCredJson, hdata, dropLiteral_exact, parseJsonString_escape,
    if_pos, hmk]

/-! ## Per-entry trace lemmas -/

theorem storeCredential_events (ssm : SSMStore) (c : Credential)
    (ev : StoreEvent) (hev : ev ∈ (storeCredential ssm c).1) :
    (∃ k, ev = StoreEvent.ssmGet k) ∨ ∃ k v, ev = StoreEvent.ssmPut k v := by
  unfold storeCredential at hev
  split at hev
  · split at hev
    · simp at hev; subst hev; exact Or.inl ⟨_, rfl⟩
    · split at hev
      · simp at hev; subst hev; exact Or.inl ⟨_, rfl⟩
      · simp at hev; subst hev; exact Or.inl ⟨_, rfl⟩
  · simp at hev; subst hev; exact Or.inr ⟨_, _, rfl⟩

theorem storeCredential_put_val (ssm : SSMStore) (c : Credential) (k v : String)
    (hmem : StoreEvent.ssmPut k v ∈ (storeCredential ssm c).1) :
    v = credJson c ∧ isMasked c.apiKey = false := by
  unfold storeCredential at hmem
  split at hmem
  · rename_i hm
    split at hmem
    · simp at hmem
    · split at hmem
      · simp at hmem
      · simp at hmem
  · rename_i hm
    simp at hmem
    exact ⟨hmem.2, by simpa using hm⟩

theorem storeCredentials_nil (ssm : SSMStore) :
    storeCredentials ssm [] = ([], .ok ([], ssm)) := by
  rw [storeCredentials.eq_def]

theorem storeCredentials_cons (ssm : SSMStore) (c : Credential)
    (rest : List Credential) :
    storeCredentials ssm (c :: rest) =
      match storeCredential ssm c with
      | (evs, .error e) => (evs, .error e)
      | (evs, .ok (rc, ssm')) =>
        match storeCredentials ssm' rest with
        | (evs2, .error e) => (evs ++ evs2, .error e)
        | (evs2, .ok (rcs, ssm'')) =>
          (evs ++ evs2, .ok (rc :: rcs, ssm'')) := by
  rw [storeCredentials.eq_def]

theorem storeCredentials_events (l : List Credential) :
    ∀ (ssm : SSMStore) (ev : StoreEvent), ev ∈ (storeCredentials ssm l).1 →
      (∃ k, ev = StoreEvent.ssmGet k) ∨ ∃ k v, ev = StoreEvent.ssmPut k v := by
  induction l with
  | nil =>
    intro ssm ev hev
    rw [storeCredentials_nil] at hev
    simp at hev
  | cons c rest ih =>
    intro ssm ev hev
    rw [storeCredentials_cons] at hev
    rcases hsc : storeCredential ssm c with ⟨evs1, r1⟩
    rw [hsc] at hev
    cases r1 with
    | error e =>
      exact storeCredential_events ssm c ev (by rw [hsc]; simpa using hev)
    | ok pr =>
      obtain ⟨rc, ssm1⟩ := pr
      dsimp only at hev
      rcases hrec : storeCredentials ssm1 rest with ⟨evs2, r2⟩
      rw [hrec] at hev
      have hev' : ev ∈ evs1 ++ evs2 := by
        cases r2 <;> simpa using hev
      rcases List.mem_append.mp hev' with h | h
      · exact storeCredential_events ssm c ev (by rw [hsc]; simpa using h)
      · exact ih ssm1 ev (by rw [hrec]; simpa using h)

theorem storeCredentials_put_val (l : List Credential) :
    ∀ (ssm : SSMStore) (k v : String),
      StoreEvent.ssmPut k v ∈ (storeCredentials ssm l).1 →
      ∃ cr, v = credJson cr ∧ isMasked cr.apiKey = false := by
  induction l with
  | nil =>
    intro ssm k v hmem
    rw [storeCredentials_nil] at hmem
    simp at hmem
  | cons c rest ih =>
    intro ssm k v hmem
    rw [storeCredentials_cons] at hmem
    rcases hsc : storeCredential ssm c with ⟨evs1, r1⟩
    rw [hsc] at hmem
    cases r1 with
    | error e =>
      obtain ⟨hv, hm⟩ := storeCredential_put_val ssm c k v
        (by rw [hsc]; simpa using hmem)
      exact ⟨c, hv, hm⟩
    | ok pr =>
      obtain ⟨rc, ssm1⟩ := pr
      dsimp only at hmem
      rcases hrec : storeCredentials ssm1 rest with ⟨evs2, r2⟩
      rw [hrec] at hmem
      have hmem' : StoreEvent.ssmPut k v ∈ evs1 ++ evs2 := by
        cases r2 <;> simpa using hmem
      rcases List.mem_append.mp hmem' with h | h
      · obtain ⟨hv, hm⟩ := storeCredential_put_val ssm c k v
          (by rw [hsc]; simpa using h)
        exact ⟨c, hv, hm⟩
      · exact ih ssm1 k v (by rw [hrec]; simpa using h)

/-! ## Claims about the reconciler -/

/-- Claim C7: for a plaintext (non-masked) entry, `storeCredential` issues exactly
one secret-store put of the JSON encoding of the entry at
`/pii/clientId/credentials`, updates the store so that the key now holds
that JSON (unconditional overwrite), and passes the entry through
unchanged. -/
theorem plaintext_upsert_passthrough (ssm : SSMStore) (c : Credential)
    (h : isMasked c.apiKey = false) :
    storeCredential ssm c =
      ([StoreEvent.ssmPut (ssmKey c.clientId) (credJson c)],
        .ok (c, insertStore ssm (ssmKey c.clientId) (credJson c))) ∧
    lookupStore (insertStore ssm (ssmKey c.clientId) (credJson c))
      (ssmKey c.clientId) = some (credJson c) := by
  refine ⟨?_, lookupStore_insertStore_self ssm _ _⟩
  unfold storeCredential
  rw [if_neg (by simp [h])]

/-- Witness for C7 at a concrete plaintext entry over a concrete store. -/
theorem plaintext_upsert_passthrough_witness :
    storeCredential ssmA ⟨"b", "plain-key-123"⟩ =
      ([StoreEvent.ssmPut (ssmKey "b") (credJson ⟨"b", "plain-key-123"⟩)],
        .ok (⟨"b", "plain-key-123"⟩,
          insertStore ssmA (ssmKey "b") (credJson ⟨"b", "plain-key-123"⟩))) ∧
    lookupStore (insertStore ssmA (ssmKey "b") (credJson ⟨"b", "plain-key-123"⟩))
      (ssmKey "b") = some (credJson ⟨"b", "plain-key-123"⟩) :=
  plaintext_upsert_passthrough ssmA ⟨"b", "plain-key-123"⟩ (by decide)

/-- Claim C8: every value the reconciler ever writes to the secret store is the
JSON encoding of a credential whose key is not masked. -/
theorem store_writes_never_masked (bucket now : String) (ssm : SSMStore)
    (file : CredentialsFile) (key k v : String)
    (hmem : StoreEvent.ssmPut k v ∈
      (rewriteS3ObjectFile bucket now ssm file key).1) :
    ∃ cr, v = credJson cr ∧ isMasked cr.apiKey = false := by
  unfold rewriteS3ObjectFile at hmem
  rcases hsc : storeCredentials ssm file.credentials with ⟨evs, r⟩
  rw [hsc] at hmem
  cases r with
  | error e =>
    exact storeCredentials_put_val file.credentials ssm k v
      (by rw [hsc]; simpa using hmem)
  | ok pr =>
    obtain ⟨resolved, ssm1⟩ := pr
    dsimp only at hmem
    by_cases hany : file.credentials.any (fun cred => !isMasked cred.apiKey)
    · rw [if_pos hany] at hmem
      have hin : StoreEvent.ssmPut k v ∈ evs := by simpa using hmem
      exact storeCredentials_put_val file.credentials ssm k v
        (by rw [hsc]; simpa using hin)
    · rw [if_neg hany] at hmem
      exact storeCredentials_put_val file.credentials ssm k v
        (by rw [hsc]; simpa using hmem)

/-- Witness for C8: the put emitted for the plaintext entry of `fileC1`
carries the JSON of that plaintext credential. -/
theorem store_writes_never_masked_witness :
    ∃ cr, credJson ⟨"b", "plain-key-123"⟩ = credJson cr ∧
      isMasked cr.apiKey = false :=
  store_writes_never_masked "B" "T" ssmA fileC1 "k" "/pii/b/credentials"
    (credJson ⟨"b", "plain-key-123"⟩) (by decide)

theorem storeCredentials_chain (l : List Credential) :
    ∀ (ssm : SSMStore) (evs : List StoreEvent) (res : List Credential)
      (ssm' : SSMStore),
      storeCredentials ssm l = (evs, .ok (res, ssm')) →
      res.length = l.length ∧
      ∃ st : Nat → SSMStore, st 0 = ssm ∧ st l.length = ssm' ∧
        ∀ i (hi : i < l.length) (hi' : i < res.length),
          ∃ tr, storeCredential (st i) (l.get ⟨i, hi⟩) =
            (tr, .ok (res.get ⟨i, hi'⟩, st (i + 1))) := by
  induction l with
  | nil =>
    intro ssm evs res ssm' h
    rw [storeCredentials_nil] at h
    simp only [Prod.mk.injEq, Except.ok.injEq] at h
    obtain ⟨hevs, hres, hssm⟩ := h
    subst hres
    exact ⟨rfl, fun _ => ssm, rfl, hssm, fun i hi hi' => absurd hi (by simp)⟩
  | cons c rest ih =>
    intro ssm evs res ssm' h
    rw [storeCredentials_cons] at h
    rcases hsc : storeCredential ssm c with ⟨evs1, r1⟩
    rw [hsc] at h
    cases r1 with
    | error e => simp at h
    | ok pr =>
      obtain ⟨rc, ssm1⟩ := pr
      dsimp only at h
      rcases hrec : storeCredentials ssm1 rest with ⟨evs2, r2⟩
      rw [hrec] at h
      cases r2 with
      | error e => simp at h
      | ok pr2 =>
        obtain ⟨rcs, ssm2⟩ := pr2
        dsimp only at h
        simp only [Prod.mk.injEq, Except.ok.injEq] at h
        obtain ⟨hevs, hres, hssm⟩ := h
        subst hres
        obtain ⟨hlen, st', hst0, hstn, hchain⟩ := ih ssm1 evs2 rcs ssm2 hrec
        refine ⟨by simp [hlen],
          fun i => match i with | 0 => ssm | j + 1 => st' j, rfl, ?_, ?_⟩
        · show st' rest.length = ssm'
          exact hstn.trans hssm
        · intro i hi hi'
          cases i with
          | zero =>
            refine ⟨evs1, ?_⟩
            show storeCredential ssm c = (evs1, .ok (rc, st' 0))
            rw [hst0]
            exact hsc
          | succ j =>
            have hj : j < rest.length := by simpa using hi
            have hj' : j < rcs.length := by simpa using hi'
            obtain ⟨tr, htr⟩ := hchain j hj hj'
            exact ⟨tr, htr⟩

/-- Claim C6: on every successful run, the output entry list has the length
of the input list, and there is a chain of store states — starting at the
input store, ending at the run's final store, each step being the actual
`storeCredential` execution — whose i-th step takes the i-th input entry to
the i-th output entry. Since `storeCredential` is a function, the chain is
uniquely determined, so the i-th output entry is exactly the resolution of
the i-th input entry in input order. -/
theorem rewrite_preserves_order (bucket now : String) (ssm : SSMStore)
    (file : CredentialsFile) (key : String) (evs : List StoreEvent)
    (outf : CredentialsFile) (ssm' : SSMStore)
    (h : rewriteS3ObjectFile bucket now ssm file key = (evs, .ok (outf, ssm'))) :
    outf.credentials.length = file.credentials.length ∧
    ∃ st : Nat → SSMStore, st 0 = ssm ∧ st file.credentials.length = ssm' ∧
      ∀ i (hi : i < file.credentials.length) (hi' : i < outf.credentials.length),
        ∃ tr, storeCredential (st i) (file.credentials.get ⟨i, hi⟩) =
          (tr, .ok (outf.credentials.get ⟨i, hi'⟩, st (i + 1))) := by
  unfold rewriteS3ObjectFile at h
  rcases hsc : storeCredentials ssm file.credentials with ⟨evs0, r0⟩
  rw [hsc] at h
  cases r0 with
  | error e => simp at h
  | ok pr =>
    obtain ⟨resolved, ssm1⟩ := pr
    dsimp only at h
    by_cases hany : file.credentials.any (fun cred => !isMasked cred.apiKey)
    · rw [if_pos hany] at h
      simp only [Prod.mk.injEq, Except.ok.injEq] at h
      obtain ⟨hevs, hout, hssm⟩ := h
      subst hout
      obtain ⟨hlen, st, hst0, hstn, hchain⟩ :=
        storeCredentials_chain file.credentials ssm evs0 resolved ssm1 hsc
      exact ⟨hlen, st, hst0, hstn.trans hssm, hchain⟩
    · rw [if_neg hany] at h
      simp only [Prod.mk.injEq, Except.ok.injEq] at h
      obtain ⟨hevs, hout, hssm⟩ := h
      subst hout
      obtain ⟨hlen, st, hst0, hstn, hchain⟩ :=
        storeCredentials_chain file.credentials ssm evs0 resolved ssm1 hsc
      exact ⟨hlen, st, hst0, hstn.trans hssm, hchain⟩

/-- Witness for C6 at the mixed fixture document, exhibiting the run's
actual chain of store states from `ssmA` to the store extended with the
plaintext entry's record. -/
theorem rewrite_preserves_order_witness :
    (CredentialsFile.mk "T" [canonicalA, ⟨"b", "plain-key-123"⟩]).credentials.length
      = fileMix.credentials.length ∧
    ∃ st : Nat → SSMStore, st 0 = ssmA ∧
      st fileMix.credentials.length =
        [("/pii/a/credentials", credJson canonicalA),
          ("/pii/b/credentials", credJson ⟨"b", "plain-key-123"⟩)] ∧
      ∀ i (hi : i < fileMix.credentials.length)
        (hi' : i < (CredentialsFile.mk "T"
          [canonicalA, ⟨"b", "plain-key-123"⟩]).credentials.length),
        ∃ tr, storeCredential (st i) (fileMix.credentials.get ⟨i, hi⟩) =
          (tr, .ok ((CredentialsFile.mk "T"
            [canonicalA, ⟨"b", "plain-key-123"⟩]).credentials.get ⟨i, hi'⟩,
            st (i + 1))) :=
  rewrite_preserves_order "B" "T" ssmA fileMix "k" _ _ _ rfl

theorem storeCredentials_all_masked (l : List Credential) :
    ∀ (ssm : SSMStore),
      (∀ c ∈ l, isMasked c.apiKey = true) →
      (∀ c ∈ l, ∃ cc, lookupStore ssm (ssmKey c.clientId) = some (credJson cc)) →
      ∃ res, storeCredentials ssm l =
        (l.map (fun c => StoreEvent.ssmGet (ssmKey c.clientId)),
          .ok (res, ssm)) := by
  induction l with
  | nil =>
    intro ssm _ _
    exact ⟨[], by rw [storeCredentials_nil]; simp⟩
  | cons c rest ih =>
    intro ssm hall hrec
    obtain ⟨cc, hcc⟩ := hrec c (List.mem_cons_self _ _)
    have hm : isMasked c.apiKey = true := hall c (List.mem_cons_self _ _)
    obtain ⟨res', hres'⟩ := ih ssm (fun x hx => hall x (List.mem_cons_of_mem _ hx))
      (fun x hx => hrec x (List.mem_cons_of_mem _ hx))
    have hsc : storeCredential ssm c =
        ([StoreEvent.ssmGet (ssmKey c.clientId)], .ok (cc, ssm)) := by
      unfold storeCredential
      rw [if_pos hm, hcc]
      dsimp only
      rw [parseCredJson_credJson]
    refine ⟨cc :: res', ?_⟩
    rw [storeCredentials_cons, hsc]
    dsimp only
    rw [hres']
    simp

/-- Claim C4: reconciling a document whose entries are all masked, over a store
holding a well-formed record for each of them, performs only secret-store
reads (no secret-store put, no object-store put), leaves the store
untouched, reports no plaintext entry, and returns the original
`lastUpdated`. -/
theorem all_masked_reconcile_noop (bucket now : String) (ssm : SSMStore)
    (file : CredentialsFile) (key : String)
    (hall : ∀ c ∈ file.credentials, isMasked c.apiKey = true)
    (hrec : ∀ c ∈ file.credentials, ∃ cc,
      lookupStore ssm (ssmKey c.clientId) = some (credJson cc)) :
    file.credentials.any (fun cred => !isMasked cred.apiKey) = false ∧
    ∃ outf, rewriteS3ObjectFile bucket now ssm file key =
      (file.credentials.map (fun c => StoreEvent.ssmGet (ssmKey c.clientId)),
        .ok (outf, ssm)) ∧
      outf.lastUpdated = file.lastUpdated ∧
      (∀ k v, StoreEvent.ssmPut k v ∉
        (rewriteS3ObjectFile bucket now ssm file key).1) ∧
      (∀ b k2 f, StoreEvent.s3Put b k2 f ∉
        (rewriteS3ObjectFile bucket now ssm file key).1) := by
  have hany : file.credentials.any (fun cred => !isMasked cred.apiKey) = false := by
    rw [List.any_eq_false]
    intro c hc
    simp [hall c hc]
  obtain ⟨res, hres⟩ := storeCredentials_all_masked file.credentials ssm hall hrec
  have he : rewriteS3ObjectFile bucket now ssm file key =
      (file.credentials.map (fun c => StoreEvent.ssmGet (ssmKey c.clientId)),
        .ok ({ file with credentials := res }, ssm)) := by
    unfold rewriteS3ObjectFile
    rw [hres]
    dsimp only
    rw [if_neg (by simp [hany])]
  refine ⟨hany, { file with credentials := res }, he, rfl, ?_, ?_⟩
  · intro k v hkv
    rw [he] at hkv
    simp at hkv
  · intro b k2 f hf
    rw [he] at hf
    simp at hf

/-- Witness for C4 at the fully masked fixture document over `ssmA`. -/
theorem all_masked_reconcile_noop_witness :
    fileMasked.credentials.any (fun cred => !isMasked cred.apiKey) = false ∧
    ∃ outf, rewriteS3ObjectFile "B" "T" ssmA fileMasked "k" =
      (fileMasked.credentials.map (fun c => StoreEvent.ssmGet (ssmKey c.clientId)),
        .ok (outf, ssmA)) ∧
      outf.lastUpdated = fileMasked.lastUpdated ∧
      (∀ k v, StoreEvent.ssmPut k v ∉
        (rewriteS3ObjectFile "B" "T" ssmA fileMasked "k").1) ∧
      (∀ b k2 f, StoreEvent.s3Put b k2 f ∉
        (rewriteS3ObjectFile "B" "T" ssmA fileMasked "k").1) :=
  all_masked_reconcile_noop "B" "T" ssmA fileMasked "k" (by decide)
    (fun c hc => by
      have hce : c = ⟨"a", "****3xyz"⟩ := by simpa [fileMasked] using hc
      subst hce
      exact ⟨canonicalA, rfl⟩)

theorem storeCredentials_notFound (l : List Credential) :
    ∀ (ssm : SSMStore),
      (∀ p ∈ ssm, (parseCredJson p.2).isSome = true) →
      ∀ e ∈ l, isMasked e.apiKey = true →
      lookupStore ssm (ssmKey e.clientId) = none →
      (∀ c ∈ l, isMasked c.apiKey = false →
        ssmKey c.clientId ≠ ssmKey e.clientId) →
      ∃ k, (storeCredentials ssm l).2 = .error (.notFound k) := by
  induction l with
  | nil =>
    intro ssm _ e he
    exact absurd he (by simp)
  | cons c rest ih =>
    intro ssm hwf e he hm habs hnp
    by_cases hmc : isMasked c.apiKey
    · cases hl : lookupStore ssm (ssmKey c.clientId) with
      | none =>
        refine ⟨ssmKey c.clientId, ?_⟩
        rw [storeCredentials_cons]
        have hsc : storeCredential ssm c =
            ([StoreEvent.ssmGet (ssmKey c.clientId)],
              .error (.notFound (ssmKey c.clientId))) := by
          unfold storeCredential
          rw [if_pos hmc, hl]
        rw [hsc]
      | some v =>
        have hvp : (parseCredJson v).isSome = true :=
          hwf (ssmKey c.clientId, v) (lookupStore_mem ssm _ v hl)
        obtain ⟨stored, hstored⟩ := Option.isSome_iff_exists.mp hvp
        have hsc : storeCredential ssm c =
            ([StoreEvent.ssmGet (ssmKey c.clientId)], .ok (stored, ssm)) := by
          unfold storeCredential
          rw [if_pos hmc, hl]
          dsimp only
          rw [hstored]
        have hec : e ≠ c := by
          intro hec
          subst hec
          rw [habs] at hl
          exact Option.noConfusion hl
        have he' : e ∈ rest := by
          rcases List.mem_cons.mp he with h | h
          · exact absurd h hec
          · exact h
        obtain ⟨k, hk⟩ := ih ssm hwf e he' hm habs
          (fun x hx => hnp x (List.mem_cons_of_mem _ hx))
        refine ⟨k, ?_⟩
        rw [storeCredentials_cons, hsc]
        dsimp only
        rcases hrec : storeCredentials ssm rest with ⟨evs2, r2⟩
        rw [hrec] at hk
        cases r2 with
        | error err =>
          dsimp only at hk
          rw [hk]
        | ok pr => simp at hk
    · have hmcf : isMasked c.apiKey = false := by simpa using hmc
      have hec : e ≠ c := by
        intro hec
        subst hec
        rw [hm] at hmcf
        exact Bool.noConfusion hmcf
      have he' : e ∈ rest := by
        rcases List.mem_cons.mp he with h | h
        · exact absurd h hec
        · exact h
      have hne : ssmKey c.clientId ≠ ssmKey e.clientId :=
        hnp c (List.mem_cons_self _ _) hmcf
      have hsc : storeCredential ssm c =
          ([StoreEvent.ssmPut (ssmKey c.clientId) (credJson c)],
            .ok (c, insertStore ssm (ssmKey c.clientId) (credJson c))) := by
        unfold storeCredential
        rw [if_neg (by simp [hmcf])]
      have hwf' : ∀ p ∈ insertStore ssm (ssmKey c.clientId) (credJson c),
          (parseCredJson p.2).isSome = true := by
        intro p hp
        rcases mem_insertStore ssm _ _ p hp with h | h
        · exact hwf p h
        · subst h
          simp [parseCredJson_credJson]
      have habs' : lookupStore (insertStore ssm (ssmKey c.clientId) (credJson c))
          (ssmKey e.clientId) = none := by
        rw [lookupStore_insertStore_ne ssm _ _ _ hne, habs]
      obtain ⟨k, hk⟩ := ih (insertStore ssm (ssmKey c.clientId) (credJson c))
        hwf' e he' hm habs' (fun x hx => hnp x (List.mem_cons_of_mem _ hx))
      refine ⟨k, ?_⟩
      rw [storeCredentials_cons, hsc]
      dsimp only
      rcases hrec : storeCredentials
          (insertStore ssm (ssmKey c.clientId) (credJson c)) rest with ⟨evs2, r2⟩
      rw [hrec] at hk
      cases r2 with
      | error err =>
        dsimp only at hk
        rw [hk]
      | ok pr => simp at hk

/-- Claim C3: a masked entry whose clientId has no record in the secret store (and
for which no plaintext entry of the same document could create that record,
and the store holds only well-formed values) makes the request abort with a
NotFoundError, with no object-store write. -/
theorem masked_without_record_aborts (bucket now : String) (ssm : SSMStore)
    (file : CredentialsFile) (key : String) (e : Credential)
    (hwf : ∀ p ∈ ssm, (parseCredJson p.2).isSome = true)
    (he : e ∈ file.credentials) (hm : isMasked e.apiKey = true)
    (habs : lookupStore ssm (ssmKey e.clientId) = none)
    (hnp : ∀ c ∈ file.credentials, isMasked c.apiKey = false →
      ssmKey c.clientId ≠ ssmKey e.clientId) :
    (∃ k, (rewriteS3ObjectFile bucket now ssm file key).2 =
      .error (.notFound k)) ∧
    ∀ b k2 f, StoreEvent.s3Put b k2 f ∉
      (rewriteS3ObjectFile bucket now ssm file key).1 := by
  obtain ⟨k, hk⟩ :=
    storeCredentials_notFound file.credentials ssm hwf e he hm habs hnp
  rcases hsc : storeCredentials ssm file.credentials with ⟨evs0, r0⟩
  rw [hsc] at hk
  dsimp only at hk
  subst hk
  have he2 : rewriteS3ObjectFile bucket now ssm file key =
      (evs0, .error (.notFound k)) := by
    unfold rewriteS3ObjectFile
    rw [hsc]
  refine ⟨⟨k, by rw [he2]⟩, ?_⟩
  intro b k2 f hf
  rw [he2] at hf
  rcases storeCredentials_events file.credentials ssm _
      (by rw [hsc]; simpa using hf) with ⟨k3, h3⟩ | ⟨k3, v3, h3⟩
  · exact StoreEvent.noConfusion h3
  · exact StoreEvent.noConfusion h3

/-- Witness for C3: a document with a plaintext entry for client b and a
masked entry for client a, over an empty store. -/
theorem masked_without_record_aborts_witness :
    (∃ k, (rewriteS3ObjectFile "B" "T" [] fileC2 "k").2 =
      .error (.notFound k)) ∧
    ∀ b k2 f, StoreEvent.s3Put b k2 f ∉
      (rewriteS3ObjectFile "B" "T" [] fileC2 "k").1 :=
  masked_without_record_aborts "B" "T" [] fileC2 "k" ⟨"a", "****WXYZ"⟩
    (by simp) (by decide) (by decide) rfl (by decide)

/-- Claim C2 counterexample: a document with a plaintext entry and a masked entry
without a store record has a non-masked input entry, yet no object-store
write occurs (the run aborts first), refuting the unconditional iff. -/
theorem rewrite_write_iff_cex :
    fileC2.credentials.any (fun cred => !isMasked cred.apiKey) = true ∧
    ∀ b k f, StoreEvent.s3Put b k f ∉
      (rewriteS3ObjectFile "B" "T" [] fileC2 "k").1 := by
  refine ⟨by decide, ?_⟩
  intro b k f hf
  rw [show (rewriteS3ObjectFile "B" "T" [] fileC2 "k").1 =
    [StoreEvent.ssmPut "/pii/b/credentials" (credJson ⟨"b", "plainkey"⟩),
      StoreEvent.ssmGet "/pii/a/credentials"] from rfl] at hf
  simp at hf

/-- Claim C2 (amended): on a successful run, an object-store write occurs iff some
input entry is not masked; and whenever no input entry is plaintext, no
object-store write occurs and a returned document keeps the original
`lastUpdated`. -/
theorem rewrite_write_iff_on_success (bucket now : String) (ssm : SSMStore)
    (file : CredentialsFile) (key : String) (evs : List StoreEvent)
    (res : Except RewriteError (CredentialsFile × SSMStore))
    (h : rewriteS3ObjectFile bucket now ssm file key = (evs, res)) :
    (∀ pr, res = .ok pr →
      ((∃ b k2 f, StoreEvent.s3Put b k2 f ∈ evs) ↔
        file.credentials.any (fun cred => !isMasked cred.apiKey) = true)) ∧
    (file.credentials.any (fun cred => !isMasked cred.apiKey) = false →
      (∀ b k2 f, StoreEvent.s3Put b k2 f ∉ evs) ∧
      ∀ pr, res = .ok pr → pr.1.lastUpdated = file.lastUpdated) := by
  unfold rewriteS3ObjectFile at h
  rcases hsc : storeCredentials ssm file.credentials with ⟨evs0, r0⟩
  rw [hsc] at h
  cases r0 with
  | error e =>
    dsimp only at h
    simp only [Prod.mk.injEq] at h
    obtain ⟨hevs, hres⟩ := h
    constructor
    · intro pr hpr
      rw [← hres] at hpr
      exact absurd hpr (by simp)
    · intro _
      refine ⟨?_, ?_⟩
      · intro b k2 f hf
        rw [← hevs] at hf
        rcases storeCredentials_events file.credentials ssm _
            (by rw [hsc]; simpa using hf) with ⟨k3, h3⟩ | ⟨k3, v3, h3⟩
        · exact StoreEvent.noConfusion h3
        · exact StoreEvent.noConfusion h3
      · intro pr hpr
        rw [← hres] at hpr
        exact absurd hpr (by simp)
  | ok pr0 =>
    obtain ⟨resolved, ssm1⟩ := pr0
    dsimp only at h
    by_cases hany : file.credentials.any (fun cred => !isMasked cred.apiKey)
    · rw [if_pos hany] at h
      simp only [Prod.mk.injEq] at h
      obtain ⟨hevs, hres⟩ := h
      constructor
      · intro pr _
        constructor
        · intro _
          exact hany
        · intro _
          refine ⟨bucket, key,
            ⟨now, file.credentials.map redactCredential⟩, ?_⟩
          rw [← hevs]
          exact List.mem_append.mpr (Or.inr (by simp))
      · intro hany0
        simp [hany] at hany0
    · rw [if_neg hany] at h
      simp only [Prod.mk.injEq] at h
      obtain ⟨hevs, hres⟩ := h
      have hnos3 : ∀ b k2 f, StoreEvent.s3Put b k2 f ∉ evs0 := by
        intro b k2 f hf
        rcases storeCredentials_events file.credentials ssm _
            (by rw [hsc]; simpa using hf) with ⟨k3, h3⟩ | ⟨k3, v3, h3⟩
        · exact StoreEvent.noConfusion h3
        · exact StoreEvent.noConfusion h3
      constructor
      · intro pr _
        constructor
        · rintro ⟨b, k2, f, hf⟩
          rw [← hevs] at hf
          exact absurd hf (hnos3 b k2 f)
        · intro hc
          exact absurd hc hany
      · intro _
        refine ⟨fun b k2 f hf => absurd (hevs ▸ hf) (hnos3 b k2 f), ?_⟩
        intro pr hpr
        rw [← hres] at hpr
        injection hpr with h2
        subst h2
        rfl

/-- Witness for the amended C2 at the fully masked fixture over `ssmA`. -/
theorem rewrite_write_iff_on_success_witness :
    (∀ pr, (Except.ok (CredentialsFile.mk "L" [canonicalA], ssmA) :
        Except RewriteError (CredentialsFile × SSMStore)) = .ok pr →
      ((∃ b k2 f, StoreEvent.s3Put b k2 f ∈
          [StoreEvent.ssmGet "/pii/a/credentials"]) ↔
        fileMasked.credentials.any (fun cred => !isMasked cred.apiKey) = true)) ∧
    (fileMasked.credentials.any (fun cred => !isMasked cred.apiKey) = false →
      (∀ b k2 f, StoreEvent.s3Put b k2 f ∉
        [StoreEvent.ssmGet "/pii/a/credentials"]) ∧
      ∀ pr, (Except.ok (CredentialsFile.mk "L" [canonicalA], ssmA) :
        Except RewriteError (CredentialsFile × SSMStore)) = .ok pr →
        pr.1.lastUpdated = fileMasked.lastUpdated) :=
  rewrite_write_iff_on_success "B" "T" ssmA fileMasked "k"
    [StoreEvent.ssmGet "/pii/a/credentials"]
    (.ok (CredentialsFile.mk "L" [canonicalA], ssmA)) rfl

/-- Claim C1 counterexample: with the store holding canonical `sk-abc123xyz` for
client a, an input whose entry for a is masked as `****WXYZ` (plus a
plaintext entry for b) triggers a rewrite, and the document written to the
object store carries `****WXYZ` for a — the mask of the INPUT value — not
`maskApiKey "sk-abc123xyz"`, the mask of the canonical plaintext the entry
resolved to. -/
theorem rewrite_masks_resolved_cex :
    rewriteS3ObjectFile "B" "T" ssmA fileC1 "k" =
      ([StoreEvent.ssmGet "/pii/a/credentials",
        StoreEvent.ssmPut "/pii/b/credentials" (credJson ⟨"b", "plain-key-123"⟩),
        StoreEvent.s3Put "B" "k"
          ⟨"T", [⟨"a", "****WXYZ"⟩, ⟨"b", "****-123"⟩]⟩],
        .ok (⟨"T", [canonicalA, ⟨"b", "plain-key-123"⟩]⟩,
          [("/pii/a/credentials", credJson canonicalA),
            ("/pii/b/credentials", credJson ⟨"b", "plain-key-123"⟩)])) ∧
    "****WXYZ" ≠ maskApiKey "sk-abc123xyz" :=
  ⟨rfl, by decide⟩

/-- Claim C1 (amended): when a rewrite is triggered on a successful run, the
document written back is exactly the INPUT entries each passed through the
masking codec (which coincides with masking the canonical value for entries
that were plaintext in the input), with a fresh `lastUpdated`. -/
theorem rewrite_masks_input_entries (bucket now : String) (ssm : SSMStore)
    (file : CredentialsFile) (key : String) (evs : List StoreEvent)
    (outf : CredentialsFile) (ssm' : SSMStore)
    (hany : file.credentials.any (fun cred => !isMasked cred.apiKey) = true)
    (h : rewriteS3ObjectFile bucket now ssm file key = (evs, .ok (outf, ssm'))) :
    (∃ pre, evs = pre ++ [StoreEvent.s3Put bucket key
      ⟨now, file.credentials.map redactCredential⟩]) ∧
    outf.lastUpdated = now := by
  unfold rewriteS3ObjectFile at h
  rcases hsc : storeCredentials ssm file.credentials with ⟨evs0, r0⟩
  rw [hsc] at h
  cases r0 with
  | error e => simp at h
  | ok pr =>
    obtain ⟨resolved, ssm1⟩ := pr
    dsimp only at h
    rw [if_pos hany] at h
    simp only [Prod.mk.injEq, Except.ok.injEq] at h
    obtain ⟨hevs, hout, hssm⟩ := h
    subst hout
    exact ⟨⟨evs0, hevs.symm⟩, rfl⟩

/-- Witness for the amended C1 at the `fileC1` fixture. -/
theorem rewrite_masks_input_entries_witness :
    (∃ pre, [StoreEvent.ssmGet "/pii/a/credentials",
        StoreEvent.ssmPut "/pii/b/credentials" (credJson ⟨"b", "plain-key-123"⟩),
        StoreEvent.s3Put "B" "k"
          ⟨"T", fileC1.credentials.map redactCredential⟩] =
      pre ++ [StoreEvent.s3Put "B" "k"
        ⟨"T", fileC1.credentials.map redactCredential⟩]) ∧
    (CredentialsFile.mk "T" [canonicalA, ⟨"b", "plain-key-123"⟩]).lastUpdated
      = "T" :=
  rewrite_masks_input_entries "B" "T" ssmA fileC1 "k" _ _ _ (by decide) rfl
